import Mathlib

/-!
Verification of the matching-and-throttling core of `bluesky-org-search.py`.

Python strings are modelled as `List Char`; Python string methods used by the
core (`lower`, `split`, substring `in`, `' '.join`) are translated below.
The regex `\b\w+\b` used by the source extracts maximal runs of word
characters (`[A-Za-z0-9_]` for the ASCII inputs the program handles), which
`findWords` reproduces.
-/

namespace BskyOrg

/-- Python `p.startswith`-style check used to build substring search:
`startsWithL p s = true` iff `p` is an initial segment of `s`. -/
def startsWithL : List Char → List Char → Bool
  | [], _ => true
  | _ :: _, [] => false
  | a :: p, b :: s => decide (a = b) && startsWithL p s

/-- Python substring test `p in s` on the `List Char` model. -/
def containsL : List Char → List Char → Bool
  | s, p =>
    startsWithL p s ||
      match s with
      | [] => false
      | _ :: t => containsL t p

/-- Python `str.lower()` (ASCII-faithful). -/
def lowerL (s : List Char) : List Char := s.map Char.toLower

/-- A regex `\w` character: alphanumeric or underscore (ASCII-faithful). -/
def isWordChar (c : Char) : Bool := c.isAlphanum || c = '_'

/-- Accumulator worker for `findWords`; `acc` holds the current run reversed. -/
def findWordsAux : List Char → List Char → List (List Char)
  | [], acc => if acc.isEmpty then [] else [acc.reverse]
  | c :: rest, acc =>
    if isWordChar c then findWordsAux rest (c :: acc)
    else if acc.isEmpty then findWordsAux rest []
    else acc.reverse :: findWordsAux rest []

/-- Python `re.findall(r'\b\w+\b', s)`: the maximal runs of word characters. -/
def findWords (s : List Char) : List (List Char) := findWordsAux s []

/-- Accumulator worker for `splitWs`; `acc` holds the current run reversed. -/
def splitWsAux : List Char → List Char → List (List Char)
  | [], acc => if acc.isEmpty then [] else [acc.reverse]
  | c :: rest, acc =>
    if c.isWhitespace then
      if acc.isEmpty then splitWsAux rest [] else acc.reverse :: splitWsAux rest []
    else splitWsAux rest (c :: acc)

/-- Python `str.split()` with no argument: split on whitespace runs,
dropping empty fields. -/
def splitWs (s : List Char) : List (List Char) := splitWsAux s []

/-!
EditDistance (`levenshtein_distance`, source lines 153-171).

The source computes the classical Wagner-Fischer dynamic program with a
rolling pair of rows.  `levRowAux` is the inner `for j, c2 in enumerate(s2)`
loop: `p0`/`p1` are `previous_row[j]`/`previous_row[j+1]` and `last` is the
entry most recently appended to `current_row`.  `levLoopGo` is the outer
`for i, c1 in enumerate(s1)` loop, and `levCore` seeds `previous_row` with
`range(len(s2)+1)` and returns `previous_row[-1]` (rows are never empty).
-/

def levRowAux (c1 : Char) : List Char → List Nat → Nat → List Nat
  | c2 :: s2, p0 :: p1 :: rest, last =>
    min (p1 + 1) (min (last + 1) (p0 + (if c1 = c2 then 0 else 1))) ::
      levRowAux c1 s2 (p1 :: rest)
        (min (p1 + 1) (min (last + 1) (p0 + (if c1 = c2 then 0 else 1))))
  | _, _, _ => []

def levLoopGo (s2 : List Char) : List Char → Nat → List Nat → List Nat
  | [], _, prev => prev
  | c1 :: s1, i, prev => levLoopGo s2 s1 (i + 1) ((i + 1) :: levRowAux c1 s2 prev (i + 1))

def levCore (s1 s2 : List Char) : Nat :=
  (levLoopGo s2 s1 0 (List.range (s2.length + 1))).getLastD 0

/-- Body of `levenshtein_distance` after the argument swap: the
`if len(s2) == 0` early return, else the dynamic program. -/
def levBody (s1 s2 : List Char) : Nat :=
  if s2.length = 0 then s1.length else levCore s1 s2

/-- Source `levenshtein_distance(s1, s2)`.  The source's
`if len(s1) < len(s2): return self.levenshtein_distance(s2, s1)` performs at
most one swap (the swapped call's guard is false), so it is unrolled here. -/
def levenshtein_distance (s1 s2 : List Char) : Nat :=
  if s1.length < s2.length then levBody s2 s1 else levBody s1 s2

/-!
FuzzyMatcher: the per-actor match decision of `search_organization`
(source lines 76-77 and 97-100) and the `fuzzy_match` method (lines 141-151).
-/

/-- Source line 76: `org_words = re.findall(r'\b\w+\b', org_name.lower())`. -/
def org_words (org_name : List Char) : List (List Char) :=
  findWords (lowerL org_name)

/-- Source line 77: `' '.join([word for word in org_words if word != 'of'])`. -/
def org_without_of (org_name : List Char) : List Char :=
  List.intercalate [' '] ((org_words org_name).filter (fun w => w != "of".toList))

/-- Source `fuzzy_match` (lines 141-151).  A `none` result models the
`ZeroDivisionError` raised by `matched_words / len(org_words)` when
`org_name.lower().split()` is empty.  The float comparison
`matched_words / len(org_words) >= 0.7` agrees with the exact rational
comparison `10 * matched_words >= 7 * len(org_words)` for every token count
the program can encounter (they only diverge when the token count exceeds
10^14, where the rounding of the float literal 0.7 becomes visible). -/
def fuzzy_match (org_name search_text : List Char) : Option Bool :=
  let ow := splitWs (lowerL org_name)
  let sw := splitWs (lowerL search_text)
  let matched_words :=
    (ow.filter (fun w => sw.any (fun s => decide (levenshtein_distance w s ≤ 2)))).length
  if ow.length = 0 then none
  else some (decide (7 * ow.length ≤ 10 * matched_words))

/-- Third disjunct of the decision (source line 99):
`all(word in search_text for word in org_words)`.  Note that `in` is
Python substring containment on the full text. -/
def all_tokens_present (org_name search_text : List Char) : Bool :=
  (org_words org_name).all (fun w => containsL search_text w)

/-- The OR of the four match tests (source lines 97-100), with Python's
short-circuit order preserved; `none` models an uncaught exception from the
`fuzzy_match` branch. -/
def matches_decision (org_name search_text : List Char) : Option Bool :=
  if containsL search_text (lowerL org_name) then some true
  else if containsL search_text (org_without_of org_name) then some true
  else if all_tokens_present org_name search_text then some true
  else fuzzy_match org_name search_text

/-!
RateLimiter (`rate_limit`, source lines 13-35).  Wall-clock instants are
modelled as rationals.  One wrapper invocation observes `now = time.time()`,
prunes entries with `now - t >= period`, and if the pruned log still holds at
least `calls` entries it sleeps, pops the oldest entry, and appends `now`
(the source appends the pre-sleep `current_time`).  A `none` result models
the `IndexError` from `calls_made[0]` when the decorator is (mis)configured
with `calls = 0` and the log is empty; the sleep itself does not change the
recorded state, so it is not modelled.
-/

def rlStep (calls : Nat) (period : ℚ) (st : List ℚ) (now : ℚ) : Option (List ℚ) :=
  let pruned := st.filter (fun t => decide (now - t < period))
  if calls ≤ pruned.length then
    match pruned with
    | [] => none
    | _ :: rest => some (rest ++ [now])
  else some (pruned ++ [now])

/-- Run the wrapper over a sequence of invocation instants, threading the
shared `calls_made` log. -/
def rlRun (calls : Nat) (period : ℚ) : List ℚ → List ℚ → Option (List ℚ)
  | [], st => some st
  | now :: nows, st =>
    match rlStep calls period st now with
    | none => none
    | some st2 => rlRun calls period nows st2

/-!
PaginatedSearch (`search_organization`, source lines 73-139).  The remote
directory is an oracle mapping the index of the network call to its outcome:
a page of actors with an optional continuation cursor, a rate-limit error
(`AtProtocolError` whose text contains `RateLimitExceeded`, carrying the
reset hint), or any other error.  `datetime.now()` is an oracle mapping the
index of the clock read to the formatted date string.  The search term,
page-size limit and cursor sent with each request are absorbed into the
oracle, which already fixes each call's outcome.
-/

structure Actor where
  handle : List Char
  display_name : List Char
  description : Option (List Char)
  followers_count : Nat
  following_count : Nat
  posts_count : Nat
deriving DecidableEq

structure Page where
  actors : List Actor
  cursor : Option (List Char)
deriving DecidableEq

inductive RemoteResp where
  | page : Page → RemoteResp
  | rateLimited : Nat → RemoteResp
  | otherError : RemoteResp
deriving DecidableEq

structure AccountMatch where
  search_term : List Char
  organization_type : List Char
  handle : List Char
  display_name : List Char
  description : Option (List Char)
  follower_count : Nat
  following_count : Nat
  posts_count : Nat
  search_date : List Char
deriving DecidableEq

/-- Source line 95: `f"{actor.display_name} {actor.description or ''}".lower()`. -/
def searchText (a : Actor) : List Char :=
  lowerL (a.display_name ++ ' ' :: a.description.getD [])

/-- The `account_info` record built at source lines 101-111, with the date
string supplied by the clock oracle. -/
def mkMatch (org_name org_type : List Char) (a : Actor) (d : List Char) : AccountMatch :=
  { search_term := org_name
    organization_type := org_type
    handle := a.handle
    display_name := a.display_name
    description := a.description
    follower_count := a.followers_count
    following_count := a.following_count
    posts_count := a.posts_count
    search_date := d }

/-- The `for actor in results.actors` loop (source lines 94-112): each
accepted actor appends an `AccountMatch` stamped with the next clock read.
A `none` result models an exception escaping the loop (the only possible one
being `fuzzy_match`'s `ZeroDivisionError`). -/
def evalPage (org_name org_type : List Char) (dates : Nat → List Char) :
    List Actor → List AccountMatch → Nat → Option (List AccountMatch × Nat)
  | [], matched, dIdx => some (matched, dIdx)
  | a :: rest, matched, dIdx =>
    match matches_decision org_name (searchText a) with
    | none => none
    | some true =>
        evalPage org_name org_type dates rest
          (matched ++ [mkMatch org_name org_type a (dates dIdx)]) (dIdx + 1)
    | some false => evalPage org_name org_type dates rest matched dIdx

/-- Source line 82: `max_pages = 1`. -/
def max_pages : Nat := 1

/-- The `while True` pagination loop (source lines 86-139), step-indexed by
`fuel` (`none` means the bound was exhausted before Python's loop returned;
every claim below is settled with sufficient fuel).  Branches:
a non-rate-limit error propagates to the outer handler which returns `[]`
(lines 132-133 and 137-139); a rate-limit error sleeps and retries with all
state intact (lines 126-131); a page is evaluated, then the loop stops when
no cursor is returned or the incremented page counter reaches `max_pages`
(lines 114-121). -/
def searchLoop (org_name org_type : List Char) (remote : Nat → RemoteResp)
    (dates : Nat → List Char) :
    Nat → Option (List Char) → Nat → List AccountMatch → Nat → Nat →
      Option (List AccountMatch)
  | 0, _, _, _, _, _ => none
  | fuel + 1, cursor, page_count, matched, callIdx, dIdx =>
    match remote callIdx with
    | RemoteResp.otherError => some []
    | RemoteResp.rateLimited _ =>
        searchLoop org_name org_type remote dates fuel cursor page_count matched
          (callIdx + 1) dIdx
    | RemoteResp.page p =>
      match evalPage org_name org_type dates p.actors matched dIdx with
      | none => some []
      | some (matched2, dIdx2) =>
        match p.cursor with
        | none => some matched2
        | some c =>
          if max_pages ≤ page_count + 1 then some matched2
          else
            searchLoop org_name org_type remote dates fuel (some c) (page_count + 1)
              matched2 (callIdx + 1) dIdx2

/-- Source `search_organization(org_name, org_type)`: run the pagination loop
from `cursor = None`, `page_count = 0`, `matched_accounts = []`. -/
def search_organization (org_name org_type : List Char) (remote : Nat → RemoteResp)
    (dates : Nat → List Char) (fuel : Nat) : Option (List AccountMatch) :=
  searchLoop org_name org_type remote dates fuel none 0 [] 0 0

/-!
Concrete fixtures for the end-to-end claims: two directory entries that
match the organization "Oxford", stub pages, and clock oracles.
-/

def oxActor : Actor :=
  { handle := "oxuni.bsky.social".toList
    display_name := "Oxford University".toList
    description := some "Official account".toList
    followers_count := 100
    following_count := 10
    posts_count := 5 }

def oxActor2 : Actor :=
  { handle := "uniofox.bsky.social".toList
    display_name := "University of Oxford".toList
    description := none
    followers_count := 200
    following_count := 20
    posts_count := 8 }

def constDates : Nat → List Char := fun _ => "2025-03-01".toList

def flipDates : Nat → List Char :=
  fun k => if k = 0 then "2025-03-01".toList else "2025-03-02".toList

def pageWithCursor : Page := { actors := [oxActor], cursor := some "cursor1".toList }

def pageNoCursor : Page := { actors := [oxActor], cursor := none }

def pageTwoActors : Page := { actors := [oxActor, oxActor2], cursor := none }

def oxMatch : AccountMatch :=
  mkMatch "Oxford".toList "university".toList oxActor ("2025-03-01".toList)

def flipMatch1 : AccountMatch :=
  mkMatch "Oxford".toList "university".toList oxActor ("2025-03-01".toList)

def flipMatch2 : AccountMatch :=
  mkMatch "Oxford".toList "university".toList oxActor2 ("2025-03-02".toList)

/-!
Reference edit distance for the proofs about `levenshtein_distance`.
`levRec` is the textbook recursion consuming the heads of both lists, with
the three candidate costs arranged exactly as the source's
`min(insertions, deletions, substitutions)`.  The dynamic program of the
source computes distances of prefixes, so its rows are related below to
`levRec` applied to reversed prefixes; no reversal-invariance of the edit
distance is needed anywhere.
-/

def levRec : List Char → List Char → Nat
  | [], t => t.length
  | _ :: s, [] => s.length + 1
  | a :: s, b :: t =>
    min (levRec s (b :: t) + 1)
      (min (levRec (a :: s) t + 1) (levRec s t + (if a = b then 0 else 1)))
termination_by s t => s.length + t.length
decreasing_by all_goals simp only [List.length_cons]; omega

/-- Specification of a DP row: the edit distances of `u` against the
reversed prefixes of the remaining second string `s2`, continuing from the
already-reversed prefix `v`. -/
def rowSpec (u : List Char) : List Char → List Char → List Nat
  | v, [] => [levRec u v]
  | v, c2 :: s2 => levRec u v :: rowSpec u (c2 :: v) s2

theorem levRec_nil_left (t : List Char) : levRec [] t = t.length := by
  simp [levRec]

theorem levRec_nil_right (s : List Char) : levRec s [] = s.length := by
  cases s <;> simp [levRec]

theorem levRec_cons_cons (a b : Char) (s t : List Char) :
    levRec (a :: s) (b :: t) =
      min (levRec s (b :: t) + 1)
        (min (levRec (a :: s) t + 1) (levRec s t + (if a = b then 0 else 1))) := by
  rw [levRec]

/-- The textbook edit distance is symmetric. -/
theorem levRec_symm (s t : List Char) : levRec s t = levRec t s := by
  generalize hn : s.length + t.length = n
  induction n using Nat.strong_induction_on generalizing s t with
  | _ n ih =>
    cases s with
    | nil => rw [levRec_nil_left, levRec_nil_right]
    | cons a s =>
      cases t with
      | nil => rw [levRec_nil_left, levRec_nil_right]
      | cons b t =>
        subst hn
        have h1 : levRec s (b :: t) = levRec (b :: t) s :=
          ih (s.length + (b :: t).length) (by simp only [List.length_cons]; omega)
            s (b :: t) rfl
        have h2 : levRec (a :: s) t = levRec t (a :: s) :=
          ih ((a :: s).length + t.length) (by simp only [List.length_cons]; omega)
            (a :: s) t rfl
        have h3 : levRec s t = levRec t s :=
          ih (s.length + t.length) (by simp only [List.length_cons]; omega) s t rfl
        have hc : (if a = b then 0 else 1) = (if b = a then (0 : Nat) else 1) := by
          by_cases h : a = b
          · rw [if_pos h, if_pos h.symm]
          · rw [if_neg h, if_neg (fun hh : b = a => h hh.symm)]
        rw [levRec_cons_cons, levRec_cons_cons, h1, h2, h3, hc]
        omega

theorem rowSpec_head (u v : List Char) (s2 : List Char) :
    ∃ r, rowSpec u v s2 = levRec u v :: r := by
  cases s2 with
  | nil => exact ⟨[], rfl⟩
  | cons c2 s2 => exact ⟨rowSpec u (c2 :: v) s2, rfl⟩

/-- Correctness of the inner loop: fed the specification row for `u`, it
produces (minus its seed head) the specification row for `c1 :: u`. -/
theorem levRowAux_rowSpec (c1 : Char) (u : List Char) (s2 : List Char) :
    ∀ v, levRec (c1 :: u) v :: levRowAux c1 s2 (rowSpec u v s2) (levRec (c1 :: u) v)
      = rowSpec (c1 :: u) v s2 := by
  induction s2 with
  | nil => intro v; simp [levRowAux, rowSpec]
  | cons c2 s2 ih =>
    intro v
    obtain ⟨r, hr⟩ := rowSpec_head u (c2 :: v) s2
    have hval :
        min (levRec u (c2 :: v) + 1)
            (min (levRec (c1 :: u) v + 1) (levRec u v + (if c1 = c2 then 0 else 1)))
          = levRec (c1 :: u) (c2 :: v) := (levRec_cons_cons c1 c2 u v).symm
    have hrec := ih (c2 :: v)
    rw [hr] at hrec
    calc levRec (c1 :: u) v ::
          levRowAux c1 (c2 :: s2) (rowSpec u v (c2 :: s2)) (levRec (c1 :: u) v)
        = levRec (c1 :: u) v ::
            levRowAux c1 (c2 :: s2) (levRec u v :: levRec u (c2 :: v) :: r)
              (levRec (c1 :: u) v) := by
          rw [show rowSpec u v (c2 :: s2) = levRec u v :: rowSpec u (c2 :: v) s2 from rfl, hr]
      _ = levRec (c1 :: u) v :: levRec (c1 :: u) (c2 :: v) ::
            levRowAux c1 s2 (levRec u (c2 :: v) :: r) (levRec (c1 :: u) (c2 :: v)) := by
          rw [levRowAux, hval]
      _ = levRec (c1 :: u) v :: rowSpec (c1 :: u) (c2 :: v) s2 := by
          rw [← hrec]
      _ = rowSpec (c1 :: u) v (c2 :: s2) := rfl

/-- Correctness of the outer loop: starting from the specification row for
the reversed consumed prefix `u`, it ends at the specification row for the
whole reversed first string. -/
theorem levLoopGo_rowSpec (s2 : List Char) :
    ∀ (s1 u : List Char),
      levLoopGo s2 s1 u.length (rowSpec u [] s2) = rowSpec (s1.reverse ++ u) [] s2 := by
  intro s1
  induction s1 with
  | nil => intro u; simp [levLoopGo]
  | cons c1 s1 ih =>
    intro u
    have hlen : levRec (c1 :: u) [] = u.length + 1 := by
      rw [levRec_nil_right]; rfl
    have hrow := levRowAux_rowSpec c1 u s2 []
    rw [hlen] at hrow
    have hgo : levLoopGo s2 (c1 :: s1) u.length (rowSpec u [] s2)
        = levLoopGo s2 s1 (u.length + 1)
            ((u.length + 1) :: levRowAux c1 s2 (rowSpec u [] s2) (u.length + 1)) := by
      rw [levLoopGo]
    rw [hgo, hrow]
    have hih := ih (c1 :: u)
    simp only [List.length_cons] at hih
    rw [hih]
    have harg : s1.reverse ++ (c1 :: u) = (c1 :: s1).reverse ++ u := by
      simp
    rw [harg]

theorem rowSpec_nil_range (s2 : List Char) :
    ∀ v, rowSpec [] v s2 = List.range' v.length (s2.length + 1) := by
  induction s2 with
  | nil => intro v; simp [rowSpec, levRec_nil_left, List.range']
  | cons c2 s2 ih =>
    intro v
    rw [show rowSpec [] v (c2 :: s2) = levRec [] v :: rowSpec [] (c2 :: v) s2 from rfl]
    rw [levRec_nil_left, ih (c2 :: v)]
    simp [List.range']

theorem rowSpec_getLastD (u : List Char) (s2 : List Char) :
    ∀ (v : List Char) (d : Nat),
      (rowSpec u v s2).getLastD d = levRec u (s2.reverse ++ v) := by
  induction s2 with
  | nil => intro v d; simp [rowSpec]
  | cons c2 s2 ih =>
    intro v d
    rw [show rowSpec u v (c2 :: s2) = levRec u v :: rowSpec u (c2 :: v) s2 from rfl]
    rw [List.getLastD_cons, ih (c2 :: v) (levRec u v)]
    simp

/-- The source's dynamic program computes the textbook edit distance of the
reversed inputs. -/
theorem levCore_eq (s1 s2 : List Char) :
    levCore s1 s2 = levRec s1.reverse s2.reverse := by
  unfold levCore
  have h0 : List.range (s2.length + 1) = rowSpec [] [] s2 := by
    rw [rowSpec_nil_range s2 []]
    simp [List.range_eq_range']
  rw [h0]
  have hgo := levLoopGo_rowSpec s2 s1 []
  simp only [List.length_nil, List.append_nil] at hgo
  rw [hgo, rowSpec_getLastD, List.append_nil]

/-- Claim C9 core: the source's `levenshtein_distance` is symmetric. -/
theorem levenshtein_distance_symm (a b : List Char) :
    levenshtein_distance a b = levenshtein_distance b a := by
  have hcore : ∀ x y : List Char, levCore x y = levCore y x := by
    intro x y
    rw [levCore_eq, levCore_eq, levRec_symm]
  unfold levenshtein_distance levBody
  split_ifs <;> first | rfl | omega | apply hcore

/-!
Characterisation of the Python substring test in terms of list
decompositions, used to settle the claims about the token tests.
-/

theorem startsWithL_iff (p : List Char) :
    ∀ s, startsWithL p s = true ↔ ∃ r, s = p ++ r := by
  induction p with
  | nil =>
    intro s
    simp [startsWithL]
  | cons a p ih =>
    intro s
    cases s with
    | nil =>
      simp [startsWithL]
    | cons b s =>
      rw [show startsWithL (a :: p) (b :: s) = (decide (a = b) && startsWithL p s) from rfl]
      simp only [Bool.and_eq_true, decide_eq_true_eq, ih s, List.cons_append,
        List.cons.injEq]
      constructor
      · rintro ⟨hab, r, hr⟩
        exact ⟨r, hab.symm, hr⟩
      · rintro ⟨r, hab, hr⟩
        exact ⟨hab.symm, r, hr⟩

theorem containsL_nil_pat (s : List Char) : containsL s [] = true := by
  cases s <;> rw [containsL] <;> simp [startsWithL]

theorem containsL_iff (p : List Char) :
    ∀ s, containsL s p = true ↔ ∃ u v, s = u ++ p ++ v := by
  intro s
  induction s with
  | nil =>
    rw [containsL]
    simp only [Bool.or_false, startsWithL_iff]
    constructor
    · rintro ⟨r, hr⟩
      exact ⟨[], r, by simpa using hr⟩
    · rintro ⟨u, v, huv⟩
      have hu : u = [] := by
        cases u with
        | nil => rfl
        | cons x u => simp at huv
      subst hu
      exact ⟨v, by simpa using huv⟩
  | cons c t ih =>
    rw [containsL]
    simp only [Bool.or_eq_true, startsWithL_iff, ih]
    constructor
    · rintro (⟨r, hr⟩ | ⟨u, v, huv⟩)
      · exact ⟨[], r, by simpa using hr⟩
      · exact ⟨c :: u, v, by simp [huv]⟩
    · rintro ⟨u, v, huv⟩
      cases u with
      | nil =>
        exact Or.inl ⟨v, by simpa using huv⟩
      | cons x u =>
        simp only [List.cons_append, List.cons.injEq] at huv
        exact Or.inr ⟨u, v, huv.2⟩

/-!
RateLimiter invariant: a single admission step keeps the log at no more
than `calls` entries, hence so does any run, hence no sliding window can
ever hold more than `calls` recorded timestamps.
-/

theorem rlStep_length (calls : Nat) (period : ℚ) (st : List ℚ) (now : ℚ)
    (hc : 1 ≤ calls) (hst : st.length ≤ calls) :
    ∃ st2, rlStep calls period st now = some st2 ∧ st2.length ≤ calls := by
  unfold rlStep
  have hp : (st.filter (fun t => decide (now - t < period))).length ≤ st.length :=
    List.length_filter_le _ _
  by_cases hge : calls ≤ (st.filter (fun t => decide (now - t < period))).length
  · rw [if_pos hge]
    cases hfil : st.filter (fun t => decide (now - t < period)) with
    | nil => rw [hfil] at hge; simp at hge; omega
    | cons x rest =>
      refine ⟨rest ++ [now], rfl, ?_⟩
      have : (x :: rest).length ≤ st.length := by rw [← hfil]; exact hp
      simp only [List.length_cons] at this
      simp only [List.length_append, List.length_singleton]
      omega
  · rw [if_neg hge]
    refine ⟨_, rfl, ?_⟩
    simp only [List.length_append, List.length_singleton]
    omega

theorem rlRun_length (calls : Nat) (period : ℚ) (hc : 1 ≤ calls) :
    ∀ (nows : List ℚ) (st : List ℚ), st.length ≤ calls →
      ∃ st2, rlRun calls period nows st = some st2 ∧ st2.length ≤ calls := by
  intro nows
  induction nows with
  | nil =>
    intro st hst
    exact ⟨st, rfl, hst⟩
  | cons now nows ih =>
    intro st hst
    obtain ⟨st1, hstep, hlen1⟩ := rlStep_length calls period st now hc hst
    obtain ⟨st2, hrun, hlen2⟩ := ih st1 hlen1
    refine ⟨st2, ?_, hlen2⟩
    rw [rlRun, hstep]
    exact hrun

/-!
PaginatedSearch branch lemmas: one lemma per arm of the loop body, used to
settle the error-handling and pagination claims without bare fuel
arithmetic.
-/

theorem searchLoop_otherError (org_name org_type : List Char) (remote : Nat → RemoteResp)
    (dates : Nat → List Char) (fuel : Nat) (cursor : Option (List Char))
    (page_count : Nat) (matched : List AccountMatch) (callIdx dIdx : Nat)
    (h : remote callIdx = RemoteResp.otherError) :
    searchLoop org_name org_type remote dates (fuel + 1) cursor page_count matched
      callIdx dIdx = some [] := by
  rw [searchLoop, h]

theorem searchLoop_rateLimited (org_name org_type : List Char) (remote : Nat → RemoteResp)
    (dates : Nat → List Char) (fuel : Nat) (cursor : Option (List Char))
    (page_count : Nat) (matched : List AccountMatch) (callIdx dIdx hint : Nat)
    (h : remote callIdx = RemoteResp.rateLimited hint) :
    searchLoop org_name org_type remote dates (fuel + 1) cursor page_count matched
        callIdx dIdx
      = searchLoop org_name org_type remote dates fuel cursor page_count matched
          (callIdx + 1) dIdx := by
  rw [searchLoop, h]

theorem searchLoop_page_noCursor (org_name org_type : List Char) (remote : Nat → RemoteResp)
    (dates : Nat → List Char) (fuel : Nat) (cursor : Option (List Char))
    (page_count : Nat) (matched : List AccountMatch) (callIdx dIdx : Nat) (p : Page)
    (matched2 : List AccountMatch) (dIdx2 : Nat)
    (h : remote callIdx = RemoteResp.page p)
    (he : evalPage org_name org_type dates p.actors matched dIdx = some (matched2, dIdx2))
    (hc : p.cursor = none) :
    searchLoop org_name org_type remote dates (fuel + 1) cursor page_count matched
      callIdx dIdx = some matched2 := by
  rw [searchLoop, h]
  simp only [he, hc]

theorem searchLoop_page_bound (org_name org_type : List Char) (remote : Nat → RemoteResp)
    (dates : Nat → List Char) (fuel : Nat) (cursor : Option (List Char))
    (page_count : Nat) (matched : List AccountMatch) (callIdx dIdx : Nat) (p : Page)
    (matched2 : List AccountMatch) (dIdx2 : Nat) (c : List Char)
    (h : remote callIdx = RemoteResp.page p)
    (he : evalPage org_name org_type dates p.actors matched dIdx = some (matched2, dIdx2))
    (hc : p.cursor = some c) (hb : max_pages ≤ page_count + 1) :
    searchLoop org_name org_type remote dates (fuel + 1) cursor page_count matched
      callIdx dIdx = some matched2 := by
  rw [searchLoop, h]
  simp only [he, hc]
  rw [if_pos hb]

/-!
Date stamping: with a constant clock every record the page loop emits is
stamped with that clock's date; the source, however, reads the clock once
per accepted actor, which the corrected claim C8 reflects.
-/

theorem evalPage_dates (org_name org_type d : List Char) :
    ∀ (actors : List Actor) (matched : List AccountMatch) (dIdx : Nat)
      (matched2 : List AccountMatch) (dIdx2 : Nat),
      (∀ m ∈ matched, m.search_date = d) →
      evalPage org_name org_type (fun _ => d) actors matched dIdx
        = some (matched2, dIdx2) →
      ∀ m ∈ matched2, m.search_date = d := by
  intro actors
  induction actors with
  | nil =>
    intro matched dIdx matched2 dIdx2 hm he
    rw [evalPage] at he
    simp only [Option.some.injEq, Prod.mk.injEq] at he
    rw [← he.1]
    exact hm
  | cons a rest ih =>
    intro matched dIdx matched2 dIdx2 hm he
    rw [evalPage] at he
    cases hdec : matches_decision org_name (searchText a) with
    | none => rw [hdec] at he; cases he
    | some b =>
      cases b with
      | true =>
        rw [hdec] at he
        refine ih (matched ++ [mkMatch org_name org_type a d]) (dIdx + 1)
          matched2 dIdx2 ?_ he
        intro m hmem
        rcases List.mem_append.mp hmem with hmem | hmem
        · exact hm m hmem
        · rw [List.mem_singleton.mp hmem]
          rfl
      | false =>
        rw [hdec] at he
        exact ih matched dIdx matched2 dIdx2 hm he

theorem searchLoop_dates (org_name org_type d : List Char) (remote : Nat → RemoteResp) :
    ∀ (fuel : Nat) (cursor : Option (List Char)) (page_count : Nat)
      (matched : List AccountMatch) (callIdx dIdx : Nat) (res : List AccountMatch),
      (∀ m ∈ matched, m.search_date = d) →
      searchLoop org_name org_type remote (fun _ => d) fuel cursor page_count matched
        callIdx dIdx = some res →
      ∀ m ∈ res, m.search_date = d := by
  intro fuel
  induction fuel with
  | zero =>
    intro cursor pc matched cIdx dIdx res hm hrun
    rw [searchLoop] at hrun
    cases hrun
  | succ fuel ih =>
    intro cursor pc matched cIdx dIdx res hm hrun
    cases hr : remote cIdx with
    | otherError =>
      rw [searchLoop_otherError org_name org_type remote (fun _ => d) fuel cursor pc
        matched cIdx dIdx hr] at hrun
      simp only [Option.some.injEq] at hrun
      rw [← hrun]
      intro m hmem
      cases hmem
    | rateLimited hint =>
      rw [searchLoop_rateLimited org_name org_type remote (fun _ => d) fuel cursor pc
        matched cIdx dIdx hint hr] at hrun
      exact ih cursor pc matched (cIdx + 1) dIdx res hm hrun
    | page p =>
      rw [searchLoop, hr] at hrun
      cases he : evalPage org_name org_type (fun _ => d) p.actors matched dIdx with
      | none =>
        simp only [he, Option.some.injEq] at hrun
        rw [← hrun]
        intro m hmem
        cases hmem
      | some md =>
        obtain ⟨matched2, dIdx2⟩ := md
        have hm2 := evalPage_dates org_name org_type d p.actors matched dIdx
          matched2 dIdx2 hm he
        simp only [he] at hrun
        cases hc : p.cursor with
        | none =>
          simp only [hc, Option.some.injEq] at hrun
          rw [← hrun]
          exact hm2
        | some c =>
          simp only [hc] at hrun
          by_cases hb : max_pages ≤ pc + 1
          · rw [if_pos hb] at hrun
            simp only [Option.some.injEq] at hrun
            rw [← hrun]
            exact hm2
          · rw [if_neg hb] at hrun
            exact ih (some c) (pc + 1) matched2 (cIdx + 1) dIdx2 res hm2 hrun

/-- C1, counterexample: the claim states that the overall match decision
(the OR of the four tests, source lines 97-100) returns true for org_name
"University of Oxford" against candidate text "oxford university press";
on the code it does not: neither substring test succeeds (word order
differs), "of" does not even occur as a substring of the candidate, and the
fuzzy test matches only 2 of 3 tokens, below the 0.7 threshold. -/
theorem C1_counterexample :
    ¬ (matches_decision "University of Oxford".toList
        "oxford university press".toList = some true) := by
  decide

/-- C1, amended: the overall match decision returns false (and raises no
exception) for org_name "University of Oxford" against candidate text
"oxford university press". -/
theorem C1_amended_decision_false :
    matches_decision "University of Oxford".toList
      "oxford university press".toList = some false := by
  decide

/-- C2: for an org_name whose whitespace split yields zero tokens (here a
single space), the fuzzy token-match test does not return false as claimed;
it raises ZeroDivisionError in `matched_words / len(org_words)`, modelled as
`none`.  The claim (and the spec, which demands define-as-failing) state the
intent; the code is the slip, albeit unreachable through lines 97-100
because the stopword-normalized-substring test accepts first. -/
theorem C2_fuzzy_zero_tokens_division_error :
    fuzzy_match " ".toList "oxford university press".toList = none := by
  decide

/-- C3: for every sequence of invocation instants of a function wrapped
with `rate_limit(calls, period)` where `calls` is positive, the run
completes without error and the recorded timestamp log never holds more
than `calls` entries falling within any trailing sliding window
`(t0 - period, t0]` (indeed the whole log never exceeds `calls` entries).
Quantifying over every instant sequence `nows` covers every intermediate
state of a longer run, since each prefix is itself such a sequence. -/
theorem C3_rate_limiter_window_bound (calls : Nat) (period : ℚ) (nows : List ℚ)
    (hc : 1 ≤ calls) :
    ∃ st, rlRun calls period nows [] = some st ∧
      ∀ t0 : ℚ,
        (st.filter (fun t => decide (t0 - period < t ∧ t ≤ t0))).length ≤ calls := by
  obtain ⟨st, hrun, hlen⟩ := rlRun_length calls period hc nows [] (by simp)
  exact ⟨st, hrun, fun t0 => le_trans (List.length_filter_le _ _) hlen⟩

theorem C3_rate_limiter_window_bound_witness :
    1 ≤ 2 ∧
    ∃ st, rlRun 2 10 [0, 1, 2] [] = some st ∧
      ∀ t0 : ℚ,
        (st.filter (fun t => decide (t0 - 10 < t ∧ t ≤ t0))).length ≤ 2 :=
  ⟨by decide, C3_rate_limiter_window_bound 2 10 [0, 1, 2] (by decide)⟩

/-- C4, counterexample: the claim characterises the all-tokens-present test
(source line 99) as whitespace-token containment; for org_name "ox" and
candidate "oxford" the code's test accepts ("ox" is a Python substring of
the candidate text) although "ox" is not among the candidate's whitespace
tokens, so the claimed equivalence fails. -/
theorem C4_counterexample :
    ¬ (all_tokens_present "ox".toList "oxford".toList = true ↔
        ∀ w ∈ org_words "ox".toList, w ∈ splitWs "oxford".toList) := by
  decide

/-- C4, amended: the all-tokens-present test accepts exactly when every
word-token of the lowercased org_name (including "of") occurs as a
contiguous substring of candidate_text (not necessarily as a whole
whitespace-delimited token). -/
theorem C4_all_tokens_substring_iff (org_name search_text : List Char) :
    all_tokens_present org_name search_text = true ↔
      ∀ w ∈ org_words org_name, ∃ u v, search_text = u ++ w ++ v := by
  unfold all_tokens_present
  rw [List.all_eq_true]
  constructor
  · intro h w hw
    exact (containsL_iff w search_text).mp (h w hw)
  · intro h w hw
    exact (containsL_iff w search_text).mpr (h w hw)

/-- C5: whenever the next remote call raises an error other than a
rate-limit error, the single-organization search returns `some []`: the
partial matches already accumulated (`matched`, arbitrary here) are
discarded, and the result is a normal return to the caller, not a
propagated exception (source lines 132-133 raise into the outer handler at
lines 137-139, which returns the empty list). -/
theorem C5_other_error_returns_empty (org_name org_type : List Char)
    (remote : Nat → RemoteResp) (dates : Nat → List Char) (fuel : Nat)
    (cursor : Option (List Char)) (page_count : Nat) (matched : List AccountMatch)
    (callIdx dIdx : Nat) (h : remote callIdx = RemoteResp.otherError) :
    searchLoop org_name org_type remote dates (fuel + 1) cursor page_count matched
      callIdx dIdx = some [] :=
  searchLoop_otherError org_name org_type remote dates fuel cursor page_count matched
    callIdx dIdx h

theorem C5_other_error_returns_empty_witness :
    (fun _ : Nat => RemoteResp.otherError) 3 = RemoteResp.otherError ∧
    searchLoop "Acme Corp".toList "company".toList (fun _ => RemoteResp.otherError)
      constDates 1 (some "cursor1".toList) 0 [oxMatch] 3 1 = some [] :=
  ⟨rfl,
    C5_other_error_returns_empty "Acme Corp".toList "company".toList
      (fun _ => RemoteResp.otherError) constDates 0 (some "cursor1".toList) 0
      [oxMatch] 3 1 rfl⟩

/-- C6: with a remote whose first response is a page carrying a next cursor
(any behaviour afterwards) and the configured page bound `max_pages = 1`,
the search returns exactly the first page's matching results: the loop sets
`page_count` to 1, reaches the bound and stops without consulting the
remote again (source lines 114-121). -/
theorem C6_page_bound_first_page_only (remote : Nat → RemoteResp)
    (h : remote 0 = RemoteResp.page pageWithCursor) :
    search_organization "Oxford".toList "university".toList remote constDates 2
      = some [oxMatch] := by
  show searchLoop "Oxford".toList "university".toList remote constDates (1 + 1)
    none 0 [] 0 0 = some [oxMatch]
  exact searchLoop_page_bound "Oxford".toList "university".toList remote constDates
    1 none 0 [] 0 0 pageWithCursor [oxMatch] 1 "cursor1".toList h (by decide) rfl
    (by decide)

theorem C6_page_bound_first_page_only_witness :
    (fun _ : Nat => RemoteResp.page pageWithCursor) 0 = RemoteResp.page pageWithCursor ∧
    search_organization "Oxford".toList "university".toList
      (fun _ => RemoteResp.page pageWithCursor) constDates 2 = some [oxMatch] :=
  ⟨rfl, C6_page_bound_first_page_only (fun _ => RemoteResp.page pageWithCursor) rfl⟩

/-- C7: with a remote that raises a rate-limit error on its first call and
returns a successful final page on the second, the search sleeps and
retries with cursor, page counter and accumulated matches unchanged (source
lines 126-131) and returns the successful page's matches; the transient
error never reaches the caller. -/
theorem C7_rate_limit_retry_returns_matches (remote : Nat → RemoteResp) (hint : Nat)
    (h0 : remote 0 = RemoteResp.rateLimited hint)
    (h1 : remote 1 = RemoteResp.page pageNoCursor) :
    search_organization "Oxford".toList "university".toList remote constDates 3
      = some [oxMatch] := by
  show searchLoop "Oxford".toList "university".toList remote constDates (2 + 1)
    none 0 [] 0 0 = some [oxMatch]
  rw [searchLoop_rateLimited "Oxford".toList "university".toList remote constDates
    2 none 0 [] 0 0 hint h0]
  show searchLoop "Oxford".toList "university".toList remote constDates (1 + 1)
    none 0 [] 1 0 = some [oxMatch]
  exact searchLoop_page_noCursor "Oxford".toList "university".toList remote constDates
    1 none 0 [] 1 0 pageNoCursor [oxMatch] 1 h1 (by decide) rfl

theorem C7_rate_limit_retry_returns_matches_witness :
    (fun k : Nat => if k = 0 then RemoteResp.rateLimited 7 else RemoteResp.page pageNoCursor) 0
        = RemoteResp.rateLimited 7 ∧
    (fun k : Nat => if k = 0 then RemoteResp.rateLimited 7 else RemoteResp.page pageNoCursor) 1
        = RemoteResp.page pageNoCursor ∧
    search_organization "Oxford".toList "university".toList
      (fun k => if k = 0 then RemoteResp.rateLimited 7 else RemoteResp.page pageNoCursor)
      constDates 3 = some [oxMatch] :=
  ⟨rfl, rfl,
    C7_rate_limit_retry_returns_matches
      (fun k => if k = 0 then RemoteResp.rateLimited 7 else RemoteResp.page pageNoCursor)
      7 rfl rfl⟩

/-- C8, counterexample: the claim states that all AccountMatch records of
one invocation carry the same search_date; but the source reads
`datetime.now()` once per accepted actor (line 110), so an invocation whose
clock crosses midnight between two accepted actors produces two different
dates, as this run with a date-changing clock oracle shows. -/
theorem C8_counterexample :
    search_organization "Oxford".toList "university".toList
        (fun _ => RemoteResp.page pageTwoActors) flipDates 1
      = some [flipMatch1, flipMatch2] ∧
    flipMatch1.search_date ≠ flipMatch2.search_date := by
  constructor
  · show searchLoop "Oxford".toList "university".toList
      (fun _ => RemoteResp.page pageTwoActors) flipDates (0 + 1) none 0 [] 0 0
      = some [flipMatch1, flipMatch2]
    exact searchLoop_page_noCursor "Oxford".toList "university".toList
      (fun _ => RemoteResp.page pageTwoActors) flipDates 0 none 0 [] 0 0
      pageTwoActors [flipMatch1, flipMatch2] 2 rfl (by decide) rfl
  · decide

/-- C8, amended: each AccountMatch's search_date is the date read from the
clock when that record is constructed; in particular, whenever the clock's
formatted date is constant throughout the invocation (the usual case: the
search does not cross midnight), every record of that invocation carries
that same search_date. -/
theorem C8_constant_clock_stable_date (org_name org_type d : List Char)
    (remote : Nat → RemoteResp) (fuel : Nat) (res : List AccountMatch)
    (h : search_organization org_name org_type remote (fun _ => d) fuel = some res) :
    ∀ m ∈ res, m.search_date = d :=
  searchLoop_dates org_name org_type d remote fuel none 0 [] 0 0 res
    (by intro m hm; cases hm) h

theorem C8_constant_clock_stable_date_witness :
    search_organization "Oxford".toList "university".toList
        (fun _ => RemoteResp.page pageNoCursor) (fun _ => "2025-03-01".toList) 1
      = some [oxMatch] ∧
    ∀ m ∈ [oxMatch], m.search_date = "2025-03-01".toList := by
  have h : search_organization "Oxford".toList "university".toList
      (fun _ => RemoteResp.page pageNoCursor) (fun _ => "2025-03-01".toList) 1
      = some [oxMatch] := by
    show searchLoop "Oxford".toList "university".toList
      (fun _ => RemoteResp.page pageNoCursor) (fun _ => "2025-03-01".toList) (0 + 1)
      none 0 [] 0 0 = some [oxMatch]
    exact searchLoop_page_noCursor "Oxford".toList "university".toList
      (fun _ => RemoteResp.page pageNoCursor) (fun _ => "2025-03-01".toList) 0
      none 0 [] 0 0 pageNoCursor [oxMatch] 1 rfl (by decide) rfl
  exact ⟨h, C8_constant_clock_stable_date "Oxford".toList "university".toList
    ("2025-03-01".toList) (fun _ => RemoteResp.page pageNoCursor) 1 [oxMatch] h⟩

/-- C9: the source's `levenshtein_distance` is symmetric in its two string
arguments.  When the lengths differ the source itself swaps; when they are
equal, the dynamic program equals the textbook edit distance of the
reversed inputs (`levCore_eq`), which is symmetric (`levRec_symm`). -/
theorem C9_levenshtein_distance_symmetric (a b : List Char) :
    levenshtein_distance a b = levenshtein_distance b a :=
  levenshtein_distance_symm a b

/-- C10: for every org_name containing no regex word-tokens (empty,
whitespace-only or punctuation-only), the overall match decision accepts
every candidate text: the stopword-normalized form is the empty string,
which is a Python substring of any text, so the second test fires (or the
first already did). -/
theorem C10_no_word_tokens_matches_all (org_name search_text : List Char)
    (h : org_words org_name = []) :
    matches_decision org_name search_text = some true := by
  unfold matches_decision
  by_cases h1 : containsL search_text (lowerL org_name) = true
  · rw [if_pos h1]
  · rw [if_neg h1]
    have h2 : org_without_of org_name = [] := by
      unfold org_without_of
      rw [h]
      rfl
    rw [h2, if_pos (containsL_nil_pat search_text)]

theorem C10_no_word_tokens_matches_all_witness :
    org_words "!!!".toList = [] ∧
    matches_decision "!!!".toList "totally unrelated text".toList = some true :=
  ⟨by decide,
    C10_no_word_tokens_matches_all "!!!".toList "totally unrelated text".toList
      (by decide)⟩

end BskyOrg
